import Mathlib

/-!
Verification development for the BiaPy post-processing module
(`src/data/post_processing/post_processing.py`).

The Python code is shallowly embedded: machine integers become `Nat`/`Int`,
floating-point quantities become `ℚ` (with Python's `math.pi` embedded as the
exact rational value of the IEEE-754 double), numpy arrays become functions
out of `ℤ`-indexed positions together with an explicit finite domain, and the
external image-processing kernels (skimage watershed, scipy right-angle
rotations) are modelled from their documented contracts where noted.
-/

namespace BiaPy

/-! ## Threshold sweeps of `calculate_optimal_mw_thresholds`

The TH2 sweep (lines 883-915) and the TH1/TH4 sweeps (lines 917-986) iterate
over a candidate threshold grid; per candidate `k` the prediction is
thresholded, connected-component labelled and (for TH2) cleaned of small
objects, producing an object count.  The sweeps below take the per-candidate
object-count sequence as input (the counts are produced by the external
`model.predict` plus `skimage` labelling) and reproduce the bookkeeping of the
Python loops exactly. -/

/-- Python's `sys.maxsize` on a 64-bit platform, the initial value of
`th2_obj_min_diff` / `th1_obj_min_diff` / `th4_obj_min_diff`. -/
def sysMaxsize : ℕ := 2 ^ 63 - 1

/-- Absolute difference `abs(obj_count - len(labels))` between an object count
and the true label count. -/
def diffOf (trueCount objCount : ℕ) : ℕ :=
  ((objCount : ℤ) - (trueCount : ℤ)).natAbs

/-- Per-candidate absolute count differences for a sweep. -/
def diffsOf (trueCount : ℕ) (counts : List ℕ) : List ℕ :=
  counts.map (diffOf trueCount)

/-- State of the TH2 sweep (source lines 887-891).  The threshold value
`th2_min` itself is always `ths[th2_op_pos]` (it is assigned together with
`th2_op_pos`), so only the position is tracked here. -/
structure Th2State where
  last : ℕ
  repeatCount : ℕ
  opPos : ℤ
  objMinDiff : ℕ
deriving DecidableEq, Repr

/-- Initial TH2 state: `th2_last = 0`, `th2_repeat_count = 0`,
`th2_op_pos = -1`, `th2_obj_min_diff = sys.maxsize`. -/
def th2Init : Th2State :=
  { last := 0, repeatCount := 0, opPos := -1, objMinDiff := sysMaxsize }

/-- One iteration of the TH2 sweep for candidate index `k` with object count
`objCount` (source lines 902-909). -/
def th2Step (trueCount : ℕ) (s : Th2State) (k : ℕ) (objCount : ℕ) : Th2State :=
  let d := diffOf trueCount objCount
  let s1 := if d < s.objMinDiff then
      { s with objMinDiff := d, opPos := (k : ℤ), repeatCount := 0 }
    else s
  let s2 := if s1.objMinDiff = s.last then
      { s1 with repeatCount := s1.repeatCount + 1 }
    else s1
  { s2 with last := d }

/-- The TH2 sweep starting from state `s` at candidate index `k`. -/
def th2SweepFrom (trueCount : ℕ) (s : Th2State) (k : ℕ) : List ℕ → Th2State
  | [] => s
  | c :: cs => th2SweepFrom trueCount (th2Step trueCount s k c) (k + 1) cs

/-- The full TH2 sweep over the per-candidate object counts. -/
def th2Sweep (trueCount : ℕ) (counts : List ℕ) : Th2State :=
  th2SweepFrom trueCount th2Init 0 counts

/-- Final chosen TH2 grid position (source lines 913-914):
`th2_op_pos + int(th2_repeat_count/2)` if the repeat count is below 10 and
`th2_op_pos + 2` otherwise, clamped to the last grid index. -/
def th2OptPos (n : ℕ) (s : Th2State) : ℤ :=
  let p := if s.repeatCount < 10 then s.opPos + (s.repeatCount / 2 : ℕ) else s.opPos + 2
  if p ≥ (n : ℤ) then (n : ℤ) - 1 else p

/-- State of the TH1/TH4 sweeps (source lines 918-924 and 955-959),
including the shared `in_row` flag. -/
structure Th1State where
  last : ℕ
  repeatCount : ℕ
  opPos : ℤ
  objMinDiff : ℕ
  inRow : Bool
deriving DecidableEq, Repr

/-- Initial TH1 state. -/
def th1Init : Th1State :=
  { last := 0, repeatCount := 0, opPos := -1, objMinDiff := sysMaxsize, inRow := false }

/-- Acceptance condition of the TH1/TH4 sweeps, stated as in the spec:
the count difference must change with respect to the previous candidate,
be non-increasing with respect to the tracked minimum, and the run length
since the last improvement must be below 4. -/
def th1Accepts (trueCount : ℕ) (s : Th1State) (objCount : ℕ) : Prop :=
  diffOf trueCount objCount ≤ s.objMinDiff ∧ s.repeatCount < 4 ∧
    diffOf trueCount objCount ≠ s.last

instance (trueCount : ℕ) (s : Th1State) (objCount : ℕ) :
    Decidable (th1Accepts trueCount s objCount) := by
  unfold th1Accepts; infer_instance

/-- One iteration of the TH1/TH4 sweep for candidate index `k` with object
count `objCount` (source lines 933-945 and 968-980). -/
def th1Step (trueCount : ℕ) (s : Th1State) (k : ℕ) (objCount : ℕ) : Th1State :=
  let d := diffOf trueCount objCount
  let s1 := if d ≤ s.objMinDiff ∧ s.repeatCount < 4 ∧ d ≠ s.last then
      { s with objMinDiff := d, opPos := (k : ℤ), repeatCount := 0, inRow := true }
    else s
  let s2 := if d = s1.last ∧ d = s1.objMinDiff ∧ s1.inRow then
      { s1 with repeatCount := s1.repeatCount + 1 }
    else if (k : ℤ) ≠ s1.opPos then { s1 with inRow := false } else s1
  { s2 with last := d }

/-- The TH1/TH4 sweep starting from state `s` at candidate index `k`. -/
def th1SweepFrom (trueCount : ℕ) (s : Th1State) (k : ℕ) : List ℕ → Th1State
  | [] => s
  | c :: cs => th1SweepFrom trueCount (th1Step trueCount s k c) (k + 1) cs

/-- The full TH1 sweep over the per-candidate object counts. -/
def th1Sweep (trueCount : ℕ) (counts : List ℕ) : Th1State :=
  th1SweepFrom trueCount th1Init 0 counts

/-- Final chosen TH1/TH4 grid position (source lines 949-950 and 984-985):
the best position advanced by the repeat count, clamped to the last grid
index. -/
def th1OptPos (n : ℕ) (s : Th1State) : ℤ :=
  let p := s.opPos + (s.repeatCount : ℤ)
  if p ≥ (n : ℤ) then (n : ℤ) - 1 else p

/-- Running minimum of a list of naturals starting from `cur`, mirroring the
update `if d < cur then d else cur` of the sweeps. -/
def runMin (cur : ℕ) : List ℕ → ℕ
  | [] => cur
  | d :: ds => runMin (min cur d) ds

/-! Helper lemmas characterising the TH2 minimiser tracking. -/

theorem runMin_le_self (cur : ℕ) (l : List ℕ) : runMin cur l ≤ cur := by
  induction l generalizing cur with
  | nil => simp [runMin]
  | cons d ds ih =>
    calc runMin (min cur d) ds ≤ min cur d := ih (min cur d)
    _ ≤ cur := min_le_left _ _

theorem runMin_le_mem (cur : ℕ) (l : List ℕ) (d : ℕ) (hd : d ∈ l) :
    runMin cur l ≤ d := by
  induction l generalizing cur with
  | nil => simp at hd
  | cons e es ih =>
    rcases List.mem_cons.mp hd with h | h
    · subst h
      calc runMin (min cur d) es ≤ min cur d := runMin_le_self _ _
      _ ≤ d := min_le_right _ _
    · exact ih (min cur e) h

theorem runMin_eq_of_all_ge (cur : ℕ) (l : List ℕ) (h : ∀ d ∈ l, cur ≤ d) :
    runMin cur l = cur := by
  induction l generalizing cur with
  | nil => rfl
  | cons e es ih =>
    have hce : cur ≤ e := h e (List.mem_cons_self _ _)
    have : min cur e = cur := min_eq_left hce
    rw [runMin, this]
    exact ih cur fun d hd => h d (List.mem_cons_of_mem _ hd)

theorem runMin_mem_or_eq (cur : ℕ) (l : List ℕ) :
    runMin cur l = cur ∨ runMin cur l ∈ l := by
  induction l generalizing cur with
  | nil => left; rfl
  | cons e es ih =>
    rcases ih (min cur e) with h | h
    · rcases Nat.le_total cur e with hce | hec
      · left; rw [runMin, h, min_eq_left hce]
      · right; rw [runMin, h, min_eq_right hec]; exact List.mem_cons_self _ _
    · right; exact List.mem_cons_of_mem _ h

theorem th2Step_objMinDiff (t : ℕ) (s : Th2State) (k c : ℕ) :
    (th2Step t s k c).objMinDiff = min s.objMinDiff (diffOf t c) := by
  unfold th2Step
  dsimp only
  split <;> split <;> simp <;> omega

theorem th2Step_opPos (t : ℕ) (s : Th2State) (k c : ℕ) :
    (th2Step t s k c).opPos =
      if diffOf t c < s.objMinDiff then (k : ℤ) else s.opPos := by
  unfold th2Step
  dsimp only
  split <;> split <;> simp_all

/-- Position bookkeeping of the TH2 sweep in isolation: starting from a
current minimum `cur` and fallback position `fb`, record index `k` whenever
the diff strictly improves. -/
def firstImprovePos (cur : ℕ) (fb : ℤ) (k : ℕ) : List ℕ → ℤ
  | [] => fb
  | d :: ds =>
    if d < cur then firstImprovePos d (k : ℤ) (k + 1) ds
    else firstImprovePos cur fb (k + 1) ds

theorem th2SweepFrom_opPos (t : ℕ) (s : Th2State) (k : ℕ) (cs : List ℕ) :
    (th2SweepFrom t s k cs).opPos =
      firstImprovePos s.objMinDiff s.opPos k (diffsOf t cs) := by
  induction cs generalizing s k with
  | nil => rfl
  | cons c cs ih =>
    rw [th2SweepFrom, ih]
    simp only [diffsOf, List.map_cons]
    by_cases h : diffOf t c < s.objMinDiff
    · rw [firstImprovePos]
      simp only [h, if_pos]
      rw [th2Step_opPos, th2Step_objMinDiff, if_pos h, min_eq_right h.le]
    · rw [firstImprovePos]
      simp only [h, if_neg, not_false_iff]
      rw [th2Step_opPos, th2Step_objMinDiff, if_neg h,
        min_eq_left (Nat.le_of_not_lt h)]

theorem th2SweepFrom_objMinDiff (t : ℕ) (s : Th2State) (k : ℕ) (cs : List ℕ) :
    (th2SweepFrom t s k cs).objMinDiff = runMin s.objMinDiff (diffsOf t cs) := by
  induction cs generalizing s k with
  | nil => rfl
  | cons c cs ih =>
    rw [th2SweepFrom, ih]
    simp only [diffsOf, List.map_cons]
    rw [runMin, th2Step_objMinDiff]

theorem firstImprovePos_of_all_ge (cur : ℕ) (fb : ℤ) (k : ℕ) (l : List ℕ)
    (h : ∀ e ∈ l, cur ≤ e) : firstImprovePos cur fb k l = fb := by
  induction l generalizing k with
  | nil => rfl
  | cons d ds ih =>
    have hd : cur ≤ d := h d (List.mem_cons_self _ _)
    rw [firstImprovePos, if_neg (Nat.not_lt.mpr hd)]
    exact ih (k + 1) (fun e he => h e (List.mem_cons_of_mem _ he))

/-- The first strict improvement tracking performed by the TH2 sweep lands on
the first occurrence of the overall minimum, whenever some element improves
on the initial bound. -/
theorem firstImprovePos_eq_indexOf (cur : ℕ) (fb : ℤ) (k : ℕ) (l : List ℕ)
    (h : ∃ e ∈ l, e < cur) :
    firstImprovePos cur fb k l = (k : ℤ) + (l.indexOf (runMin cur l) : ℤ) := by
  induction l generalizing cur fb k with
  | nil => simp at h
  | cons d ds ih =>
    by_cases hd : d < cur
    · rw [firstImprovePos, if_pos hd, runMin, min_eq_right hd.le]
      by_cases h2 : ∃ e ∈ ds, e < d
      · have hm : runMin d ds < d := by
          obtain ⟨e, he, hlt⟩ := h2
          exact lt_of_le_of_lt (runMin_le_mem d ds e he) hlt
        rw [ih d (k : ℤ) (k + 1) h2]
        rw [List.indexOf_cons_ne _ (by omega : d ≠ runMin d ds)]
        push_cast
        ring
      · push_neg at h2
        rw [runMin_eq_of_all_ge d ds h2, firstImprovePos_of_all_ge d (k : ℤ) (k + 1) ds h2,
          List.indexOf_cons_self]
        simp
    · have hcur : cur ≤ d := Nat.le_of_not_lt hd
      have h2 : ∃ e ∈ ds, e < cur := by
        obtain ⟨e, he, hlt⟩ := h
        rcases List.mem_cons.mp he with rfl | hmem
        · omega
        · exact ⟨e, hmem, hlt⟩
      have hm : runMin cur ds < cur := by
        obtain ⟨e, he, hlt⟩ := h2
        exact lt_of_le_of_lt (runMin_le_mem cur ds e he) hlt
      rw [firstImprovePos, if_neg hd, runMin, min_eq_left hcur,
        ih cur fb (k + 1) h2, List.indexOf_cons_ne _ (by omega : d ≠ runMin cur ds)]
      push_cast
      ring

/-- C1: for every sample the TH2 sweep tracks the first grid position
minimising the absolute difference between the post-cleanup object count and
the true label count (conjunct 1); the chosen position is the minimiser
advanced by half the repeat count when that count is below 10 and by 2
otherwise, clamped to the last grid index (conjunct 2); on the spec scenario
with object counts `[5,4,3,3,3,6]` and true count 3 the diffs are
`[2,1,0,0,0,3]`, the minimiser is position 2, and the chosen index 3 lies
inside the run of 3's (positions 2..4), strictly past its first occurrence
and in its later half (conjunct 3). -/
theorem claim_C1_th2_sweep (t : ℕ) (counts : List ℕ)
    (h : ∃ c ∈ counts, diffOf t c < sysMaxsize) :
    ((th2Sweep t counts).objMinDiff = runMin sysMaxsize (diffsOf t counts) ∧
      (th2Sweep t counts).opPos =
        ((diffsOf t counts).indexOf (runMin sysMaxsize (diffsOf t counts)) : ℤ)) ∧
    (∀ n s, th2OptPos n s =
      min (s.opPos + (if s.repeatCount < 10 then ((s.repeatCount / 2 : ℕ) : ℤ) else 2))
        ((n : ℤ) - 1)) ∧
    (th2OptPos 6 (th2Sweep 3 [5, 4, 3, 3, 3, 6]) = 3 ∧
      diffsOf 3 [5, 4, 3, 3, 3, 6] = [2, 1, 0, 0, 0, 3] ∧
      (th2Sweep 3 [5, 4, 3, 3, 3, 6]).opPos = 2 ∧
      (th2Sweep 3 [5, 4, 3, 3, 3, 6]).repeatCount = 3 ∧
      (2 : ℤ) < 3 ∧ (3 : ℤ) ≤ 4) := by
  refine ⟨⟨?_, ?_⟩, ?_, by decide⟩
  · exact th2SweepFrom_objMinDiff t th2Init 0 counts
  · have hex : ∃ e ∈ diffsOf t counts, e < sysMaxsize := by
      obtain ⟨c, hc, hlt⟩ := h
      exact ⟨diffOf t c, List.mem_map_of_mem _ hc, hlt⟩
    rw [th2Sweep, th2SweepFrom_opPos,
      firstImprovePos_eq_indexOf _ _ _ _ (by exact hex)]
    simp [th2Init]
  · intro n s
    unfold th2OptPos
    by_cases hr : s.repeatCount < 10 <;> simp only [hr, if_pos, if_neg, not_false_iff] <;>
      split <;> omega

/-- Witness for C1 at the spec scenario input. -/
theorem claim_C1_witness :
    (∃ c ∈ [5, 4, 3, 3, 3, 6], diffOf 3 c < sysMaxsize) ∧
    (th2Sweep 3 [5, 4, 3, 3, 3, 6]).opPos =
      ((diffsOf 3 [5, 4, 3, 3, 3, 6]).indexOf
        (runMin sysMaxsize (diffsOf 3 [5, 4, 3, 3, 3, 6])) : ℤ) :=
  ⟨by decide, (claim_C1_th2_sweep 3 [5, 4, 3, 3, 3, 6] (by decide)).1.2⟩

/-- C2: in the TH1/TH4 sweeps a new best candidate is accepted only when the
triple condition of `th1Accepts` holds — the count difference differs from
the previous one, does not exceed the tracked minimum, and the repeat run is
below 4 (conjunct 1: necessity — the best position changes only on
acceptance, and then moves to the current index; conjunct 2: sufficiency —
on acceptance the minimum, position, repeat counter and in-row flag are
updated); the final chosen position is the best position advanced by the
full repeat run length, clamped to the last grid index (conjunct 3). -/
theorem claim_C2_th1_sweep :
    (∀ t (s : Th1State) (k c : ℕ), (th1Step t s k c).opPos ≠ s.opPos →
      th1Accepts t s c ∧ (th1Step t s k c).opPos = (k : ℤ)) ∧
    (∀ t (s : Th1State) (k c : ℕ), th1Accepts t s c →
      (th1Step t s k c).opPos = (k : ℤ) ∧
      (th1Step t s k c).objMinDiff = diffOf t c ∧
      (th1Step t s k c).repeatCount = 0 ∧
      (th1Step t s k c).inRow = true) ∧
    (∀ n (s : Th1State), th1OptPos n s =
      min (s.opPos + (s.repeatCount : ℤ)) ((n : ℤ) - 1)) := by
  refine ⟨?_, ?_, ?_⟩
  · intro t s k c hne
    unfold th1Step at hne ⊢
    unfold th1Accepts
    dsimp only at hne ⊢
    by_cases h1 : diffOf t c ≤ s.objMinDiff ∧ s.repeatCount < 4 ∧ diffOf t c ≠ s.last
    · constructor
      · exact h1
      · simp only [h1, if_pos] at hne ⊢
        split <;> simp_all
    · exfalso
      apply hne
      simp only [h1, if_neg, not_false_iff]
      split
      · rfl
      · split <;> rfl
  · intro t s k c hacc
    unfold th1Accepts at hacc
    unfold th1Step
    dsimp only
    simp only [hacc, if_pos]
    have hlast : ¬(diffOf t c = s.last ∧ diffOf t c = diffOf t c ∧ True) := by
      simp [hacc.2.2]
    split
    · simp_all
    · split <;> simp_all
  · intro n s
    unfold th1OptPos
    dsimp only
    split <;> omega

/-- Witness for C2: applying the acceptance characterisation at a concrete
state and input. -/
theorem claim_C2_witness :
    (th1Step 3 th1Init 0 5).opPos = 0 ∧
    (th1Step 3 th1Init 0 5).objMinDiff = 2 ∧
    (th1Step 3 th1Init 0 5).repeatCount = 0 ∧
    (th1Step 3 th1Init 0 5).inRow = true := by
  have h := claim_C2_th1_sweep.2.1 3 th1Init 0 5 (by decide)
  exact ⟨h.1, h.2.1.trans (by decide), h.2.2.1, h.2.2.2⟩

/-! ## Degenerate-sample handling of `calculate_optimal_mw_thresholds` (C8) -/

/-- One calibration sample as consumed by the per-sample loop (source lines
829-989): the distinct ground-truth label values `np.unique(mask)` together
with the per-candidate object counts that the TH2 and TH1 sweeps observe for
this sample (those counts come from the external `model.predict` and
`skimage` labelling, so they are inputs here). -/
structure CalibSample where
  gtLabels : List ℕ
  th2Counts : List ℕ
  th1Counts : List ℕ

/-- The per-sample values appended to the threshold lists `l_th2_min`,
`l_th2_opt`, `l_th1_min` and `l_th1_opt` (as grid positions). -/
structure CalibEntry where
  th2Pos : ℤ
  th2Opt : ℤ
  th1Pos : ℤ
  th1Opt : ℤ
deriving DecidableEq, Repr

/-- Lists accumulated by the calibration loop: the per-sample threshold
entries and the `ideal_number_obj` statistic. -/
structure CalibAcc where
  entries : List CalibEntry
  idealNumberObj : List ℕ
deriving DecidableEq, Repr

/-- Threshold search for one non-degenerate sample: the TH2 sweep followed by
the TH1 sweep, with true count `len(labels)`; `n` is the candidate grid
length. -/
def calibEntryOf (n : ℕ) (s : CalibSample) : CalibEntry :=
  let t := s.gtLabels.length
  let st2 := th2Sweep t s.th2Counts
  let st1 := th1Sweep t s.th1Counts
  { th2Pos := st2.opPos, th2Opt := th2OptPos n st2,
    th1Pos := st1.opPos, th1Opt := th1OptPos n st1 }

/-- One iteration of the per-sample loop (source lines 829-989): a sample
whose ground truth has a single unique label is only logged and skipped,
every other sample runs the threshold searches; in both cases the label
count is appended to `ideal_number_obj` (line 989). -/
def calibStep (n : ℕ) (acc : CalibAcc) (s : CalibSample) : CalibAcc :=
  if s.gtLabels.length = 1 then
    { acc with idealNumberObj := acc.idealNumberObj ++ [s.gtLabels.length] }
  else
    { entries := acc.entries ++ [calibEntryOf n s],
      idealNumberObj := acc.idealNumberObj ++ [s.gtLabels.length] }

/-- The whole per-sample loop of `calculate_optimal_mw_thresholds`. -/
def calibrationLoop (n : ℕ) (samples : List CalibSample) : CalibAcc :=
  samples.foldl (calibStep n) { entries := [], idealNumberObj := [] }

theorem calibrationLoop_from (n : ℕ) (ss : List CalibSample) (acc : CalibAcc) :
    ss.foldl (calibStep n) acc =
      { entries := acc.entries ++
          (ss.filter (fun s => s.gtLabels.length ≠ 1)).map (calibEntryOf n),
        idealNumberObj := acc.idealNumberObj ++ ss.map (fun s => s.gtLabels.length) } := by
  induction ss generalizing acc with
  | nil => simp
  | cons s ss ih =>
    rw [List.foldl_cons, ih]
    by_cases h : s.gtLabels.length = 1 <;>
      simp [calibStep, h, List.filter_cons]

/-- C8: every sample whose ground-truth mask has a single unique label is
excluded from all threshold searches — the entry lists collect exactly the
non-degenerate samples, in order — while its label count still reaches the
`ideal_number_obj` statistic; the loop is a total function, so no error is
raised for such samples. -/
theorem claim_C8_degenerate_samples (n : ℕ) (ss : List CalibSample) :
    (calibrationLoop n ss).entries =
      (ss.filter (fun s => s.gtLabels.length ≠ 1)).map (calibEntryOf n) ∧
    (calibrationLoop n ss).idealNumberObj = ss.map (fun s => s.gtLabels.length) := by
  rw [calibrationLoop, calibrationLoop_from]
  exact ⟨by simp, by simp⟩

/-! ## Circularity filtering (`remove_instance_by_circularity_central_slice`) -/

/-- Exact rational value of the IEEE-754 double `math.pi`. -/
def mathPi : ℚ := 884279719003555 / 281474976710656

/-- Circularity of one measured slice (source lines 1891-1894): when the
perimeter is nonzero, `4 * pi * area / perimeter**2`; a zero-perimeter slice
is assigned circularity 0 instead of dividing by zero. -/
def circularity (area perimeter : ℚ) : ℚ :=
  if perimeter ≠ 0 then 4 * mathPi * area / (perimeter * perimeter) else 0

/-- Comment tag attached to each instance (the strings of the source are
modelled by an enumeration). -/
inductive CircTag
  | correct
  | strange
deriving DecidableEq, Repr

/-- One instance as seen by the final filtering loop of
`remove_instance_by_circularity_central_slice`: its label and the
(area, perimeter) measurements taken on its representative slices by the
per-slice accumulation pass (source lines 1869-1903). -/
structure CircInstance where
  lab : ℕ
  measures : List (ℚ × ℚ)

/-- Mean circularity over the measured representative slices, as computed in
source lines 1906-1907: the accumulated circularity sum divided by the
number of measurements, or 0 when nothing was measured.  The source
accumulates into a float32 array (line 1859) and the embedding uses exact
rationals, so boundary comparisons against the threshold are only asserted
at inputs where every float step of the source is exact (such as a
circularity of exactly 0 from the zero-perimeter guard, stored and divided
without rounding). -/
def circMean (ms : List (ℚ × ℚ)) : ℚ :=
  if ms.length ≠ 0 then (ms.map fun m => circularity m.1 m.2).sum / (ms.length : ℚ)
  else 0

/-- Pass/fail decision of source line 1908: `correct` exactly when the mean
circularity strictly exceeds the threshold. -/
def circTagOf (th : ℚ) (inst : CircInstance) : CircTag :=
  if circMean inst.measures > th then .correct else .strange

/-- Whether an instance is relabelled to background (source lines 1910-1914). -/
def circRemoved (th : ℚ) (inst : CircInstance) : Bool :=
  decide (¬ circMean inst.measures > th)

/-- Relabelling pass: every voxel carrying the label of a removed instance
becomes background 0 (source line 1913). -/
def circFilterImage {α : Type} (th : ℚ) (insts : List CircInstance) (img : α → ℕ) :
    α → ℕ :=
  fun v =>
    if insts.any (fun inst => circRemoved th inst && inst.lab == img v) then 0
    else img v

/-- Counterexample to C6 as stated: an instance whose mean circularity equals
the threshold exactly is relabelled to background even though its
circularity is not below the threshold.  A single measured slice with zero
perimeter gets circularity exactly 0 from the guard of lines 1891-1894; at
threshold 0 the comparison of line 1908 is `0 > 0`, so the instance is
tagged strange and its voxels are zeroed, yet `circMean < 0` is false.
Every float step of the source at this input is exact — 0 is stored in the
float32 array without rounding, divided by the count 1, and compared with
the threshold 0 — so the exact-rational evaluation coincides with the
code's. -/
theorem claim_C6_counterexample :
    circTagOf 0 ⟨1, [(1, 0)]⟩ = CircTag.strange ∧
    circFilterImage 0 [⟨1, [(1, 0)]⟩] (fun _ : Unit => 1) () = 0 ∧
    ¬ circMean [((1 : ℚ), (0 : ℚ))] < 0 := by
  have hm : circMean [((1 : ℚ), (0 : ℚ))] = 0 := by
    norm_num [circMean, circularity]
  refine ⟨?_, ?_, by rw [hm]; exact lt_irrefl _⟩
  · rw [circTagOf]
    simp [hm]
  · rw [circFilterImage]
    simp [circRemoved, hm]

/-- C6 amended: the filter relabels to background exactly those instances
whose mean measured circularity is less than OR EQUAL TO the threshold
(instances exactly at the threshold are also rejected); a perfect-circle
instance with area `pi * r^2` and perimeter `2 * pi * r` has circularity
exactly 1 and is tagged correct at threshold 0.7. -/
theorem claim_C6_circularity_filter :
    (∀ (th : ℚ) (inst : CircInstance),
      (circTagOf th inst = CircTag.strange ↔ circMean inst.measures ≤ th) ∧
      (circRemoved th inst = true ↔ circMean inst.measures ≤ th)) ∧
    (∀ r : ℚ, 0 < r →
      circularity (mathPi * r ^ 2) (2 * mathPi * r) = 1 ∧
      circTagOf (7 / 10) ⟨1, [(mathPi * r ^ 2, 2 * mathPi * r)]⟩ = CircTag.correct) := by
  constructor
  · intro th inst
    constructor
    · rw [circTagOf]
      split
      · simp_all
      · simp_all
    · rw [circRemoved]
      simp [not_lt]
  · intro r hr
    have hpi : mathPi ≠ 0 := by norm_num [mathPi]
    have hone : circularity (mathPi * r ^ 2) (2 * mathPi * r) = 1 := by
      rw [circularity, if_pos (by positivity)]
      field_simp
      ring
    refine ⟨hone, ?_⟩
    have hm : circMean [(mathPi * r ^ 2, 2 * mathPi * r)] = 1 := by
      rw [circMean]
      simp [hone]
    rw [circTagOf]
    simp only [hm]
    norm_num

/-- Witness for C6 (amended) at the concrete radius 1. -/
theorem claim_C6_witness :
    circularity (mathPi * 1 ^ 2) (2 * mathPi * 1) = 1 ∧
    circTagOf (7 / 10) ⟨1, [(mathPi * 1 ^ 2, 2 * mathPi * 1)]⟩ = CircTag.correct :=
  claim_C6_circularity_filter.2 1 (by norm_num)

/-- C9: an instance slice with zero perimeter is assigned circularity 0; the
division `4 * pi * area / perimeter^2` is only taken on the
nonzero-perimeter branch, so the computation never divides by zero. -/
theorem claim_C9_zero_perimeter_circularity :
    ∀ area : ℚ, circularity area 0 = 0 := by
  intro area
  simp [circularity]

/-! ## Grid framework, watershed and dtype choice (`watershed_by_channels`) -/

/-- Voxel positions of a 3D array, as integer triples `(z, y, x)`. -/
abbrev GridPos : Type := ℤ × ℤ × ℤ

/-- Scan-order enumeration of the voxels of a `(d, h, w)` array. -/
def cuboid (d h w : ℕ) : List GridPos :=
  (List.range d).flatMap fun z =>
    (List.range h).flatMap fun y =>
      (List.range w).map fun x => ((z : ℤ), (y : ℤ), (x : ℤ))

/-- The six face neighbours of a voxel (connectivity 1, no diagonals). -/
def faceNeighbors (p : GridPos) : List GridPos :=
  [(p.1 + 1, p.2.1, p.2.2), (p.1 - 1, p.2.1, p.2.2),
   (p.1, p.2.1 + 1, p.2.2), (p.1, p.2.1 - 1, p.2.2),
   (p.1, p.2.1, p.2.2 + 1), (p.1, p.2.1, p.2.2 - 1)]

/-- Label of the preferred already-labelled face neighbour of a voxel: among
the labelled neighbours, the first one of maximal semantic value; 0 when no
neighbour is labelled. -/
def bestNeighborLabel (semantic : GridPos → ℚ) (lab : GridPos → ℕ) (p : GridPos) : ℕ :=
  match (faceNeighbors p).filter (fun q => lab q != 0) with
  | [] => 0
  | q :: qs => lab (qs.foldl (fun b r => if semantic r > semantic b then r else b) q)

/-- Modelled from the spec: one growth step of the marker-controlled
watershed `watershed(-semantic, seed_map, mask=foreground)` of source line
344 (an external `skimage` kernel).  The contract is that flooding is
constrained to the mask — voxels outside it never receive a label — and
that labels spread from the seed basins along grid adjacency.  The flooding
priority only decides which label wins a contested voxel; this model lets an
unlabelled in-mask voxel adopt the label of an already-labelled face
neighbour of maximal semantic value. -/
def floodStep (dom : List GridPos) (semantic : GridPos → ℚ) (mask : GridPos → Bool)
    (lab : GridPos → ℕ) : GridPos → ℕ :=
  fun p =>
    if lab p ≠ 0 then lab p
    else if mask p = true ∧ p ∈ dom then bestNeighborLabel semantic lab p
    else 0

/-- Iterated flooding. -/
def flood (dom : List GridPos) (semantic : GridPos → ℚ) (mask : GridPos → Bool) :
    ℕ → (GridPos → ℕ) → (GridPos → ℕ)
  | 0, lab => lab
  | n + 1, lab => flood dom semantic mask n (floodStep dom semantic mask lab)

/-- Modelled from the spec: the watershed output — marker labels restricted
to the mask, grown by `fuel` flooding steps. -/
def watershedGrow (dom : List GridPos) (semantic : GridPos → ℚ) (seeds : GridPos → ℕ)
    (mask : GridPos → Bool) (fuel : ℕ) : GridPos → ℕ :=
  flood dom semantic mask fuel
    (fun p => if mask p = true ∧ p ∈ dom then seeds p else 0)

/-- Total voxel count of a label value over the domain. -/
def labelCount (dom : List GridPos) (lab : GridPos → ℕ) (l : ℕ) : ℕ :=
  (dom.filter fun p => lab p == l).length

/-- Modelled from the spec: `skimage.morphology.remove_small_objects` on a
labelled image (external): every nonzero label whose total voxel count is
below `minSize` is zeroed. -/
def removeSmallObjects (dom : List GridPos) (lab : GridPos → ℕ) (minSize : ℕ) :
    GridPos → ℕ :=
  fun p => if lab p ≠ 0 ∧ labelCount dom lab (lab p) < minSize then 0 else lab p

/-- Maximum label value of the array (`np.max(segm)`, source line 350). -/
def maxLabel (dom : List GridPos) (lab : GridPos → ℕ) : ℕ :=
  (dom.map lab).foldr max 0

/-- The unsigned integer dtypes available to the post-step. -/
inductive LabelDtype
  | uint8
  | uint16
  | uint32
deriving DecidableEq, Repr

/-- Largest value representable in each dtype. -/
def dtypeMax : LabelDtype → ℕ
  | .uint8 => 255
  | .uint16 => 65535
  | .uint32 => 4294967295

/-- Dtype choice of `watershed_by_channels` (source lines 349-356): uint8
when `max_value < 255`, else uint16 when `max_value < 65535`, else uint32. -/
def chooseDtype (maxValue : ℕ) : LabelDtype :=
  if maxValue < 255 then .uint8 else if maxValue < 65535 then .uint16 else .uint32

/-- Result of `watershed_by_channels`: the label array together with the
dtype it is stored in. -/
structure WatershedResult where
  segm : GridPos → ℕ
  dtype : LabelDtype

/-- Tail of `watershed_by_channels` after seed construction (source lines
341-356): optional small-object removal on the seeds, the mask-constrained
watershed, optional small-object removal on the result, and the dtype
choice.  The connected-component-labelled seed map and the foreground mask
are inputs; for the `BCDv2`-family modes, whose foreground is `None`, the
mask is the all-true function. -/
def watershedByChannelsCore (dom : List GridPos) (semantic : GridPos → ℚ)
    (seedMap : GridPos → ℕ) (mask : GridPos → Bool) (fuel : ℕ)
    (removeBefore : Bool) (thresSmallBefore : ℕ)
    (removeAfter : Bool) (thresSmallAfter : ℕ) : WatershedResult :=
  let seeds :=
    if removeBefore then removeSmallObjects dom seedMap thresSmallBefore else seedMap
  let segm0 := watershedGrow dom semantic seeds mask fuel
  let segm := if removeAfter then removeSmallObjects dom segm0 thresSmallAfter else segm0
  { segm := segm, dtype := chooseDtype (maxLabel dom segm) }

theorem floodStep_mask (dom : List GridPos) (semantic : GridPos → ℚ)
    (mask : GridPos → Bool) (lab : GridPos → ℕ)
    (h : ∀ q, lab q ≠ 0 → mask q = true) :
    ∀ p, floodStep dom semantic mask lab p ≠ 0 → mask p = true := by
  intro p hp
  simp only [floodStep] at hp
  by_cases h1 : lab p ≠ 0
  · exact h p h1
  · rw [if_neg h1] at hp
    by_cases h2 : mask p = true ∧ p ∈ dom
    · exact h2.1
    · rw [if_neg h2] at hp
      exact absurd rfl hp

theorem flood_mask (dom : List GridPos) (semantic : GridPos → ℚ)
    (mask : GridPos → Bool) :
    ∀ (fuel : ℕ) (lab : GridPos → ℕ), (∀ q, lab q ≠ 0 → mask q = true) →
      ∀ p, flood dom semantic mask fuel lab p ≠ 0 → mask p = true := by
  intro fuel
  induction fuel with
  | zero => intro lab h p hp; exact h p hp
  | succ n ih =>
    intro lab h p hp
    exact ih _ (floodStep_mask dom semantic mask lab h) p hp

/-- C3: the watershed flooding is constrained to the foreground mask — for
every input, no voxel where the mask is false receives a positive label in
the segmentation returned by `watershed_by_channels`; the (optional)
small-object removal afterwards can only set further voxels to 0. -/
theorem claim_C3_watershed_respects_mask
    (dom : List GridPos) (semantic : GridPos → ℚ) (seedMap : GridPos → ℕ)
    (mask : GridPos → Bool) (fuel : ℕ) (removeBefore : Bool) (tb : ℕ)
    (removeAfter : Bool) (ta : ℕ) (p : GridPos) (hp : mask p = false) :
    (watershedByChannelsCore dom semantic seedMap mask fuel
      removeBefore tb removeAfter ta).segm p = 0 := by
  rw [watershedByChannelsCore]
  dsimp only
  have hseg0 : ∀ seeds : GridPos → ℕ,
      watershedGrow dom semantic seeds mask fuel p = 0 := by
    intro seeds
    by_contra hne
    have hinit : ∀ q, (fun r => if mask r = true ∧ r ∈ dom then seeds r else 0) q ≠ 0 →
        mask q = true := by
      intro q hq
      dsimp only at hq
      by_cases hc : mask q = true ∧ q ∈ dom
      · exact hc.1
      · rw [if_neg hc] at hq; exact absurd rfl hq
    have := flood_mask dom semantic mask fuel _ hinit p hne
    rw [this] at hp
    exact Bool.noConfusion hp
  split
  · simp [removeSmallObjects, hseg0]
  · exact hseg0 _

/-- Witness for C3 on a concrete 1x1x2 grid whose mask excludes the second
voxel. -/
theorem claim_C3_witness :
    (fun q : GridPos => decide (q = ((0 : ℤ), (0 : ℤ), (0 : ℤ)))) ((0 : ℤ), (0 : ℤ), (1 : ℤ)) = false ∧
    (watershedByChannelsCore (cuboid 1 1 2) (fun _ => 0) (fun _ => 1)
      (fun q => decide (q = ((0 : ℤ), (0 : ℤ), (0 : ℤ)))) 3 false 0 false 0).segm
        ((0 : ℤ), (0 : ℤ), (1 : ℤ)) = 0 :=
  ⟨by decide,
    claim_C3_watershed_respects_mask (cuboid 1 1 2) (fun _ => 0) (fun _ => 1)
      (fun q => decide (q = ((0 : ℤ), (0 : ℤ), (0 : ℤ)))) 3 false 0 false 0
      ((0 : ℤ), (0 : ℤ), (1 : ℤ)) (by decide)⟩

/-- Counterexample to C5 as stated: a watershed result whose maximum label is
255 — a value representable in uint8 — is stored as uint16, because the
source compares with strict `max_value < 255`. -/
theorem claim_C5_counterexample :
    (watershedByChannelsCore [((0 : ℤ), (0 : ℤ), (0 : ℤ))] (fun _ => 0) (fun _ => 255)
      (fun _ => true) 0 false 0 false 0).dtype = LabelDtype.uint16 ∧
    maxLabel [((0 : ℤ), (0 : ℤ), (0 : ℤ))]
      (watershedByChannelsCore [((0 : ℤ), (0 : ℤ), (0 : ℤ))] (fun _ => 0) (fun _ => 255)
        (fun _ => true) 0 false 0 false 0).segm = 255 ∧
    (255 : ℕ) ≤ dtypeMax LabelDtype.uint8 := by
  refine ⟨by decide, by decide, by decide⟩

/-- C5 amended: the dtype returned by `watershed_by_channels` is
`chooseDtype` of the maximum label, which selects by strict comparison —
uint8 iff the maximum is strictly below 255, uint16 iff it lies in
[255, 65535), uint32 otherwise.  Equivalently it is the smallest of the
three widths whose maximum representable value strictly exceeds the maximum
label (so the boundary values 255 and 65535 are promoted to the next
width), and the maximum label always fits the chosen dtype as long as it
does not exceed the uint32 maximum. -/
theorem claim_C5_dtype_choice (dom : List GridPos) (semantic : GridPos → ℚ)
    (seedMap : GridPos → ℕ) (mask : GridPos → Bool) (fuel : ℕ)
    (rb : Bool) (tb : ℕ) (ra : Bool) (ta : ℕ) :
    (watershedByChannelsCore dom semantic seedMap mask fuel rb tb ra ta).dtype
      = chooseDtype (maxLabel dom
          (watershedByChannelsCore dom semantic seedMap mask fuel rb tb ra ta).segm) ∧
    (∀ m : ℕ, (chooseDtype m = .uint8 ↔ m < 255) ∧
      (chooseDtype m = .uint16 ↔ 255 ≤ m ∧ m < 65535) ∧
      (chooseDtype m = .uint32 ↔ 65535 ≤ m)) ∧
    (∀ m : ℕ, ∀ d : LabelDtype, m < dtypeMax d → dtypeMax (chooseDtype m) ≤ dtypeMax d) ∧
    (∀ m : ℕ, m ≤ dtypeMax .uint32 → m ≤ dtypeMax (chooseDtype m)) := by
  have hcase : ∀ m : ℕ, (m < 255 ∧ chooseDtype m = .uint8) ∨
      ((255 ≤ m ∧ m < 65535) ∧ chooseDtype m = .uint16) ∨
      (65535 ≤ m ∧ chooseDtype m = .uint32) := by
    intro m
    by_cases h1 : m < 255
    · exact Or.inl ⟨h1, by simp [chooseDtype, h1]⟩
    · by_cases h2 : m < 65535
      · exact Or.inr (Or.inl ⟨⟨by omega, h2⟩, by simp [chooseDtype, h1, h2]⟩)
      · exact Or.inr (Or.inr ⟨by omega, by simp [chooseDtype, h1, h2]⟩)
  refine ⟨rfl, ?_, ?_, ?_⟩
  · intro m
    rcases hcase m with ⟨h, hc⟩ | ⟨h, hc⟩ | ⟨h, hc⟩ <;> rw [hc] <;>
      refine ⟨?_, ?_, ?_⟩ <;> simp <;> omega
  · intro m d hd
    rcases hcase m with ⟨h, hc⟩ | ⟨h, hc⟩ | ⟨h, hc⟩ <;> rw [hc] <;>
      cases d <;> simp [dtypeMax] at hd ⊢ <;> omega
  · intro m hm
    rcases hcase m with ⟨h, hc⟩ | ⟨h, hc⟩ | ⟨h, hc⟩ <;> rw [hc] <;>
      simp [dtypeMax] at hm ⊢ <;> omega

/-- Witness for C5 (amended) at a concrete maximum label of 300: uint16 is
the smallest width strictly containing it, and 300 fits uint16. -/
theorem claim_C5_witness :
    dtypeMax (chooseDtype 300) ≤ dtypeMax LabelDtype.uint16 ∧
    (300 : ℕ) ≤ dtypeMax (chooseDtype 300) :=
  ⟨(claim_C5_dtype_choice [] (fun _ => 0) (fun _ => 0) (fun _ => true)
      0 false 0 false 0).2.2.1 300 LabelDtype.uint16 (by decide),
   (claim_C5_dtype_choice [] (fun _ => 0) (fun _ => 0) (fun _ => true)
      0 false 0 false 0).2.2.2 300 (by decide)⟩

/-! ## Test-time augmentation ensembles (`ensemble8_2d_predictions`,
`ensemble16_3d_predictions`), with an identity `pred_func` and
`n_classes = 1`.  The per-channel loop applies identical transforms to every
channel, so a single channel is embedded; with an identity prediction the
batching loop concatenates the untouched variant stack back together, so the
variants are processed as a list. -/

/-- A single-channel 2D image as a total function on integer row/column
indices; an `(h, w)` array occupies `[0, h) x [0, w)`. -/
abbrev Img2 : Type := ℤ → ℤ → ℚ

/-- Counter-clockwise quarter rotation `np.rot90(m, k=1)` of an n x n image:
`result[i][j] = m[j][n - 1 - i]`. -/
def rot90 (n : ℤ) (A : Img2) : Img2 := fun i j => A j (n - 1 - i)

/-- Horizontal flip `img[:, ::-1]` of an image with n columns. -/
def flipCols (n : ℤ) (A : Img2) : Img2 := fun i j => A i (n - 1 - j)

/-- Reflect padding `np.pad(img, [(p, 0), (0, 0)], 'reflect')`: p reflected
rows prepended (`padded[i] = img[p - i]` for `i < p`). -/
def padRowsReflect (p : ℤ) (A : Img2) : Img2 :=
  fun i j => if i < p then A (p - i) j else A (i - p) j

/-- Reflect padding `np.pad(img, [(0, 0), (p, 0)], 'reflect')`: p reflected
columns prepended. -/
def padColsReflect (p : ℤ) (A : Img2) : Img2 :=
  fun i j => if j < p then A i (p - j) else A i (j - p)

/-- The 8 forward-transformed variants of `ensemble8_2d_predictions`
(source lines 458-467) composed with their inverses (source lines 502-509),
under an identity `pred_func`. -/
def ensemble8Outs (n : ℤ) (img : Img2) : List Img2 :=
  [img,
   rot90 n (rot90 n (rot90 n (rot90 n img))),
   rot90 n (rot90 n (rot90 n (rot90 n img))),
   rot90 n (rot90 n (rot90 n (rot90 n img))),
   flipCols n (flipCols n img),
   flipCols n (rot90 n (rot90 n (rot90 n (rot90 n (flipCols n img))))),
   flipCols n (rot90 n (rot90 n (rot90 n (rot90 n (flipCols n img))))),
   flipCols n (rot90 n (rot90 n (rot90 n (rot90 n (flipCols n img)))))]

/-- Mean over the 8 inverted variants (`np.mean(out, axis=0)`). -/
def ensemble8Mean (n : ℤ) (img : Img2) : Img2 :=
  fun i j => ((ensemble8Outs n img).map fun B => B i j).sum / 8

/-- `ensemble8_2d_predictions` with identity `pred_func` and `n_classes = 1`
on one channel: pad to square with reflect at the start of the shorter axis
(`pad_to_square = h - w`, rows when negative, columns otherwise), transform,
predict, invert, strip the padding from the start of the padded axis, and
average. -/
def ensemble8Id (h w : ℕ) (A : Img2) : Img2 :=
  let pad : ℤ := (h : ℤ) - (w : ℤ)
  let n : ℤ := max (h : ℤ) (w : ℤ)
  let img : Img2 := if pad < 0 then padRowsReflect (-pad) A else padColsReflect pad A
  fun i j =>
    if pad < 0 then ensemble8Mean n img (i - pad) j else ensemble8Mean n img i (j + pad)

theorem rot90_four (n : ℤ) (A : Img2) :
    rot90 n (rot90 n (rot90 n (rot90 n A))) = A := by
  funext i j
  show A (n - 1 - (n - 1 - i)) (n - 1 - (n - 1 - j)) = A i j
  congr 1 <;> ring

theorem flipCols_flipCols (n : ℤ) (A : Img2) : flipCols n (flipCols n A) = A := by
  funext i j
  show A i (n - 1 - (n - 1 - j)) = A i j
  congr 1
  ring

theorem ensemble8Mean_eq (n : ℤ) (img : Img2) (i j : ℤ) :
    ensemble8Mean n img i j = img i j := by
  rw [ensemble8Mean, ensemble8Outs]
  simp only [rot90_four, flipCols_flipCols]
  simp only [List.map_cons, List.map_nil, List.sum_cons, List.sum_nil]
  ring

/-- A single-channel 3D volume as a total function on `(z, y, x)` integer
indices; a `(d, hy, wx)` array occupies `[0,d) x [0,hy) x [0,wx)`. -/
abbrev Vol3 : Type := ℤ → ℤ → ℤ → ℚ

/-- Modelled from the spec: `scipy.ndimage.rotate(v, angle=90, axes=(2, 1),
reshape=False)` (external) on a volume whose axes 1 and 2 both have size n.
At right angles on a square plane the rotation maps grid points to grid
points, so it acts as the exact grid permutation of each z-slice; `rotP` is
the 90-degree rotation. -/
def rotP (n : ℤ) (V : Vol3) : Vol3 := fun z y x => V z x (n - 1 - y)

/-- Modelled from the spec: `scipy.ndimage.rotate` with `angle=-90` on the
same axes — the inverse grid rotation. -/
def rotN (n : ℤ) (V : Vol3) : Vol3 := fun z y x => V z (n - 1 - x) y

/-- `np.flip(volume, 0)` for depth d. -/
def flipAx0 (d : ℤ) (V : Vol3) : Vol3 := fun z y x => V (d - 1 - z) y x

/-- `np.flip(volume, 1)` for axis-1 size n. -/
def flipAx1 (n : ℤ) (V : Vol3) : Vol3 := fun z y x => V z (n - 1 - y) x

/-- `np.flip(volume, 2)` for axis-2 size n. -/
def flipAx2 (n : ℤ) (V : Vol3) : Vol3 := fun z y x => V z y (n - 1 - x)

/-- Reflect padding `np.pad(vol, [(0,0), (p,0), (0,0)], 'reflect')`. -/
def padAx1Reflect (p : ℤ) (V : Vol3) : Vol3 :=
  fun z y x => if y < p then V z (p - y) x else V z (y - p) x

/-- Reflect padding `np.pad(vol, [(0,0), (0,0), (p,0)], 'reflect')`. -/
def padAx2Reflect (p : ℤ) (V : Vol3) : Vol3 :=
  fun z y x => if x < p then V z y (p - x) else V z y (x - p)

/-- The 16 forward-transformed variants of `ensemble16_3d_predictions`
(source lines 589-608) composed with their inverses (source lines 646-662),
under an identity `pred_func` (rotations by 180 and 270 degrees act as the
iterated quarter rotation). -/
def ensemble16Outs (d n : ℤ) (vol : Vol3) : List Vol3 :=
  [vol,
   rotN n (rotP n vol),
   rotN n (rotN n (rotP n (rotP n vol))),
   rotN n (rotN n (rotN n (rotP n (rotP n (rotP n vol))))),
   flipAx0 d (flipAx0 d vol),
   flipAx0 d (rotN n (rotP n (flipAx0 d vol))),
   flipAx0 d (rotN n (rotN n (rotP n (rotP n (flipAx0 d vol))))),
   flipAx0 d (rotN n (rotN n (rotN n (rotP n (rotP n (rotP n (flipAx0 d vol))))))),
   flipAx1 n (flipAx1 n vol),
   flipAx1 n (rotN n (rotP n (flipAx1 n vol))),
   flipAx1 n (rotN n (rotN n (rotP n (rotP n (flipAx1 n vol))))),
   flipAx1 n (rotN n (rotN n (rotN n (rotP n (rotP n (rotP n (flipAx1 n vol))))))),
   flipAx2 n (flipAx2 n vol),
   flipAx2 n (rotN n (rotP n (flipAx2 n vol))),
   flipAx2 n (rotN n (rotN n (rotP n (rotP n (flipAx2 n vol))))),
   flipAx2 n (rotN n (rotN n (rotN n (rotP n (rotP n (rotP n (flipAx2 n vol)))))))]

/-- Mean over the 16 inverted variants. -/
def ensemble16Mean (d n : ℤ) (vol : Vol3) : Vol3 :=
  fun z y x => ((ensemble16Outs d n vol).map fun B => B z y x).sum / 16

/-- `ensemble16_3d_predictions` with identity `pred_func` and `n_classes = 1`
on one channel: pad axes 1/2 to square with reflect
(`pad_to_square = wx - hy`, axis 2 when negative, axis 1 otherwise),
transform, predict, invert, strip the padding from the start of the padded
axis, and average. -/
def ensemble16Id (d hy wx : ℕ) (V : Vol3) : Vol3 :=
  let pad : ℤ := (wx : ℤ) - (hy : ℤ)
  let n : ℤ := max (hy : ℤ) (wx : ℤ)
  let vol : Vol3 := if pad < 0 then padAx2Reflect (-pad) V else padAx1Reflect pad V
  fun z y x =>
    if pad < 0 then ensemble16Mean (d : ℤ) n vol z y (x - pad)
    else ensemble16Mean (d : ℤ) n vol z (y + pad) x

theorem rotN_rotP (n : ℤ) (V : Vol3) : rotN n (rotP n V) = V := by
  funext z y x
  show V z y (n - 1 - (n - 1 - x)) = V z y x
  congr 1
  ring

theorem flipAx0_flipAx0 (d : ℤ) (V : Vol3) : flipAx0 d (flipAx0 d V) = V := by
  funext z y x
  show V (d - 1 - (d - 1 - z)) y x = V z y x
  congr 1
  ring

theorem flipAx1_flipAx1 (n : ℤ) (V : Vol3) : flipAx1 n (flipAx1 n V) = V := by
  funext z y x
  show V z (n - 1 - (n - 1 - y)) x = V z y x
  congr 2
  ring

theorem flipAx2_flipAx2 (n : ℤ) (V : Vol3) : flipAx2 n (flipAx2 n V) = V := by
  funext z y x
  show V z y (n - 1 - (n - 1 - x)) = V z y x
  congr 1
  ring

theorem ensemble16Mean_eq (d n : ℤ) (vol : Vol3) (z y x : ℤ) :
    ensemble16Mean d n vol z y x = vol z y x := by
  rw [ensemble16Mean, ensemble16Outs]
  simp only [rotN_rotP, flipAx0_flipAx0, flipAx1_flipAx1, flipAx2_flipAx2]
  simp only [List.map_cons, List.map_nil, List.sum_cons, List.sum_nil]
  ring

/-- C4: with an identity `pred_func` and `n_classes = 1`, the pad-to-square,
transform, predict, invert, unpad and average cycle of
`ensemble8_2d_predictions` (8 variants, 2D) and of
`ensemble16_3d_predictions` (16 variants, 3D, with right-angle rotations
modelled as exact grid permutations) reproduces the original input exactly
at every in-range index, for square or non-square and even or odd spatial
sizes. -/
theorem claim_C4_ensemble_identity :
    (∀ (h w : ℕ) (A : Img2) (i j : ℤ), 0 ≤ i → 0 ≤ j →
      ensemble8Id h w A i j = A i j) ∧
    (∀ (d hy wx : ℕ) (V : Vol3) (z y x : ℤ), 0 ≤ y → 0 ≤ x →
      ensemble16Id d hy wx V z y x = V z y x) := by
  constructor
  · intro h w A i j hi hj
    rw [ensemble8Id]
    by_cases hp : (h : ℤ) - (w : ℤ) < 0
    · simp only [hp, if_pos, ensemble8Mean_eq]
      rw [padRowsReflect]
      rw [if_neg (by omega)]
      congr 1
      ring
    · simp only [hp, if_neg, not_false_iff, ensemble8Mean_eq]
      rw [padColsReflect]
      rw [if_neg (by omega)]
      congr 1
      ring
  · intro d hy wx V z y x hy0 hx0
    rw [ensemble16Id]
    by_cases hp : (wx : ℤ) - (hy : ℤ) < 0
    · simp only [hp, if_pos, ensemble16Mean_eq]
      rw [padAx2Reflect]
      rw [if_neg (by omega)]
      congr 1
      ring
    · simp only [hp, if_neg, not_false_iff, ensemble16Mean_eq]
      rw [padAx1Reflect]
      rw [if_neg (by omega)]
      congr 2
      ring

/-- Witness for C4 on concrete non-square odd/even inputs. -/
theorem claim_C4_witness :
    ensemble8Id 2 3 (fun i j => (i : ℚ) + 2 * (j : ℚ)) 1 2 =
      (fun i j : ℤ => (i : ℚ) + 2 * (j : ℚ)) 1 2 ∧
    ensemble16Id 1 3 2 (fun z y x => (z : ℚ) + 3 * (y : ℚ) + 5 * (x : ℚ)) 0 2 1 =
      (fun z y x : ℤ => (z : ℚ) + 3 * (y : ℚ) + 5 * (x : ℚ)) 0 2 1 :=
  ⟨claim_C4_ensemble_identity.1 2 3 _ 1 2 (by norm_num) (by norm_num),
   claim_C4_ensemble_identity.2 1 3 2 _ 0 2 1 (by norm_num) (by norm_num)⟩

/-! ## Voronoi gap filling (`voronoi_on_mask`, Contract A) -/

/-- First-occurrence duplicate removal. -/
def firstDedup {α : Type} [DecidableEq α] (l : List α) : List α :=
  l.foldl (fun acc x => if x ∈ acc then acc else acc ++ [x]) []

/-- Ascending list of the distinct values of the flattened label array
(`npi.group_by` groups the unique values in ascending order, like
`np.unique`; source line 1190). -/
def uniqueLabels (dom : List GridPos) (data : GridPos → ℕ) : List ℕ :=
  (firstDedup (dom.map data)).insertionSort (· ≤ ·)

/-- Centroid (mean index vector) of the voxels carrying value `l`
(source lines 1189-1191). -/
def centroidOf (dom : List GridPos) (data : GridPos → ℕ) (l : ℕ) : ℚ × ℚ × ℚ :=
  let ps := dom.filter fun p => data p == l
  ((ps.map fun p => (p.1 : ℚ)).sum / ps.length,
   (ps.map fun p => (p.2.1 : ℚ)).sum / ps.length,
   (ps.map fun p => (p.2.2 : ℚ)).sum / ps.length)

/-- Centroid list, one entry per unique value in ascending value order
(source lines 1188-1192). -/
def centroids (dom : List GridPos) (data : GridPos → ℕ) : List (ℚ × ℚ × ℚ) :=
  (uniqueLabels dom data).map (centroidOf dom data)

/-- Squared Euclidean distance from a voxel to a centroid. -/
def sqDistTo (p : GridPos) (c : ℚ × ℚ × ℚ) : ℚ :=
  ((p.1 : ℚ) - c.1) ^ 2 + ((p.2.1 : ℚ) - c.2.1) ^ 2 + ((p.2.2 : ℚ) - c.2.2) ^ 2

/-- Search for the index of the nearest centroid: strict-improvement scan,
returning the first index attaining the minimum distance. -/
def nearestIdxAux (p : GridPos) (best : ℕ) (bestD : ℚ) (k : ℕ) :
    List (ℚ × ℚ × ℚ) → ℕ
  | [] => best
  | c :: cs =>
    if sqDistTo p c < bestD then nearestIdxAux p k (sqDistTo p c) (k + 1) cs
    else nearestIdxAux p best bestD (k + 1) cs

/-- Modelled from the spec: `tree.query(pos)[1]` of the `scipy` KDTree
(external) — the index, in input order, of the centroid nearest to the
query under the Euclidean distance (compared on squares). -/
def nearestIdx (cs : List (ℚ × ℚ × ℚ)) (p : GridPos) : ℕ :=
  match cs with
  | [] => 0
  | c :: rest => nearestIdxAux p 0 (sqDistTo p c) 1 rest

/-- The 26 neighbours of a voxel (full connectivity). -/
def allNeighbors (p : GridPos) : List GridPos :=
  ([-1, 0, 1] : List ℤ).flatMap fun dz =>
    ([-1, 0, 1] : List ℤ).flatMap fun dy =>
      ([-1, 0, 1] : List ℤ).filterMap fun dx =>
        if dz = 0 ∧ dy = 0 ∧ dx = 0 then none
        else some (p.1 + dz, p.2.1 + dy, p.2.2 + dx)

/-- One expansion step of a connected-component flood over the true voxels
of `fg` inside `dom`, with full connectivity. -/
def ccExpand (dom : List GridPos) (fg : GridPos → Bool) (s : List GridPos) :
    List GridPos :=
  firstDedup (s ++ (s.flatMap allNeighbors).filter fun q => fg q && decide (q ∈ dom))

/-- Iterated component expansion. -/
def ccReach (dom : List GridPos) (fg : GridPos → Bool) :
    ℕ → List GridPos → List GridPos
  | 0, s => s
  | n + 1, s => ccReach dom fg n (ccExpand dom fg s)

/-- Voxels reachable from `p` through true voxels (`dom.length` expansion
steps saturate any component). -/
def ccComponent (dom : List GridPos) (fg : GridPos → Bool) (p : GridPos) :
    List GridPos :=
  ccReach dom fg dom.length [p]

/-- Scan-order-first voxel of the component of `p`. -/
def ccRepOf (dom : List GridPos) (fg : GridPos → Bool) (p : GridPos) : GridPos :=
  (dom.filter fun q => decide (q ∈ ccComponent dom fg p)).headD p

/-- Modelled from the spec: `skimage.measure.label` (external) on a boolean
3D mask with default full connectivity — connected components of true
voxels are labelled 1..n in scan order; each voxel's label is one plus the
rank of its component representative among all representatives. -/
def ccLabel (dom : List GridPos) (fg : GridPos → Bool) : GridPos → ℕ :=
  let reps := firstDedup ((dom.filter fun p => fg p).map (ccRepOf dom fg))
  fun p => if fg p = true ∧ p ∈ dom then reps.indexOf (ccRepOf dom fg p) + 1 else 0

/-- Modelled from the spec: `scipy.ndimage.binary_dilation` (external) with
the default cross structuring element (centre plus the six face
neighbours); values outside the array are 0. -/
def binDilate (dom : List GridPos) (m : GridPos → Bool) : GridPos → Bool :=
  fun p => decide (p ∈ dom) && (m p || (faceNeighbors p).any m)

/-- Modelled from the spec: `scipy.ndimage.binary_erosion` (external) with
the same structuring element and border value 0. -/
def binErode (dom : List GridPos) (m : GridPos → Bool) : GridPos → Bool :=
  fun p => decide (p ∈ dom) && m p && (faceNeighbors p).all m

/-- The cleaned voxel mask of `voronoi_on_mask` (source lines 1197-1203):
threshold channel 0 of the mask at `th`, connected-component label it, drop
components below `thres_small`, binarize, then dilate twice and erode
twice. -/
def voronoiMask (dom : List GridPos) (maskCh : GridPos → ℚ) (th : ℚ)
    (thresSmall : ℕ) : GridPos → Bool :=
  let raw : GridPos → Bool := fun p => decide (p ∈ dom) && decide (maskCh p > th)
  let labelled := ccLabel dom raw
  let cleaned := removeSmallObjects dom labelled thresSmall
  let bin : GridPos → Bool := fun p => cleaned p != 0
  binErode dom (binErode dom (binDilate dom (binDilate dom bin)))

/-- Core of `voronoi_on_mask` for one image (source lines 1185-1212): build
the centroid list by grouping the label values, clean the mask, and
overwrite every voxel whose labelled state (`data > 0`) disagrees — logical
XOR — with the cleaned mask by the index of its nearest centroid
(`_data[i,z,x,y] = tree.query(pos)[1]`). -/
def voronoiOnMask (dom : List GridPos) (data : GridPos → ℕ) (maskCh : GridPos → ℚ)
    (th : ℚ) (thresSmall : ℕ) : GridPos → ℕ :=
  let cents := centroids dom data
  let vmask := voronoiMask dom maskCh th thresSmall
  fun p =>
    if p ∈ dom ∧ decide (0 < data p) ≠ vmask p then nearestIdx cents p
    else data p

/-- Concrete 1 x 1 x 6 image for C7: label 5 at x = 0, label 9 at x = 1,
background elsewhere. -/
def voroDom : List GridPos := cuboid 1 1 6

/-- Concrete label data for C7. -/
def voroData : GridPos → ℕ :=
  fun p => if p = ((0 : ℤ), (0 : ℤ), (0 : ℤ)) then 5
    else if p = ((0 : ℤ), (0 : ℤ), (1 : ℤ)) then 9 else 0

/-- C7: every voxel selected by the XOR of `data > 0` with the cleaned mask
is overwritten with the index rank of its nearest centroid in the
by-unique-value centroid list (conjunct 1); on a concrete image with labels
{5, 9} the gap voxel at the origin is assigned value 1 — the index of label
9's centroid in the list built over unique values [0, 5, 9] — which is not
the label value of any instance in the image (conjunct 2). -/
theorem claim_C7_voronoi_index_rank :
    (∀ (dom : List GridPos) (data : GridPos → ℕ) (maskCh : GridPos → ℚ)
        (th : ℚ) (tS : ℕ) (p : GridPos), p ∈ dom →
      decide (0 < data p) ≠ voronoiMask dom maskCh th tS p →
      voronoiOnMask dom data maskCh th tS p = nearestIdx (centroids dom data) p) ∧
    (voronoiOnMask voroDom voroData (fun _ => 0) 1 128
        ((0 : ℤ), (0 : ℤ), (0 : ℤ)) = 1 ∧
      voroData ((0 : ℤ), (0 : ℤ), (0 : ℤ)) = 5 ∧
      uniqueLabels voroDom voroData = [0, 5, 9] ∧
      (1 : ℕ) ∉ uniqueLabels voroDom voroData) := by
  have hgen : ∀ (dom : List GridPos) (data : GridPos → ℕ) (maskCh : GridPos → ℚ)
      (th : ℚ) (tS : ℕ) (p : GridPos), p ∈ dom →
      decide (0 < data p) ≠ voronoiMask dom maskCh th tS p →
      voronoiOnMask dom data maskCh th tS p = nearestIdx (centroids dom data) p := by
    intro dom data maskCh th tS p hp hx
    rw [voronoiOnMask]
    exact if_pos ⟨hp, hx⟩
  refine ⟨hgen, ?_, by decide, by decide, by decide⟩
  have hu : uniqueLabels voroDom voroData = [0, 5, 9] := by decide
  have h0 : voroDom.filter (fun p => voroData p == 0) =
      [((0 : ℤ), (0 : ℤ), (2 : ℤ)), ((0 : ℤ), (0 : ℤ), (3 : ℤ)),
       ((0 : ℤ), (0 : ℤ), (4 : ℤ)), ((0 : ℤ), (0 : ℤ), (5 : ℤ))] := by decide
  have h5 : voroDom.filter (fun p => voroData p == 5) =
      [((0 : ℤ), (0 : ℤ), (0 : ℤ))] := by decide
  have h9 : voroDom.filter (fun p => voroData p == 9) =
      [((0 : ℤ), (0 : ℤ), (1 : ℤ))] := by decide
  have hc : centroids voroDom voroData =
      [(0, 0, 7 / 2), (0, 0, 0), (0, 0, 1)] := by
    rw [centroids, hu]
    simp only [List.map_cons, List.map_nil, centroidOf, h0, h5, h9]
    norm_num
  have hmask : voronoiMask voroDom (fun _ => 0) 1 128
      ((0 : ℤ), (0 : ℤ), (0 : ℤ)) = false := by decide
  have hn : nearestIdx [((0 : ℚ), (0 : ℚ), (7 / 2 : ℚ)), (0, 0, 0), (0, 0, 1)]
      ((0 : ℤ), (0 : ℤ), (0 : ℤ)) = 1 := by
    norm_num [nearestIdx, nearestIdxAux, sqDistTo]
  rw [hgen voroDom voroData (fun _ => 0) 1 128 ((0 : ℤ), (0 : ℤ), (0 : ℤ))
    (by decide) (by rw [hmask]; decide), hc, hn]

/-- Witness for C7 (general conjunct) at a second concrete input: a single
label-7 voxel not covered by the (empty) cleaned mask is overwritten by its
nearest-centroid index. -/
theorem claim_C7_witness :
    voronoiOnMask voroDom (fun p => if p = ((0 : ℤ), (0 : ℤ), (2 : ℤ)) then 7 else 0)
      (fun _ => 0) 1 128 ((0 : ℤ), (0 : ℤ), (2 : ℤ)) =
    nearestIdx (centroids voroDom
      (fun p => if p = ((0 : ℤ), (0 : ℤ), (2 : ℤ)) then 7 else 0))
      ((0 : ℤ), (0 : ℤ), (2 : ℤ)) :=
  claim_C7_voronoi_index_rank.1 voroDom
    (fun p => if p = ((0 : ℤ), (0 : ℤ), (2 : ℤ)) then 7 else 0)
    (fun _ => 0) 1 128 ((0 : ℤ), (0 : ℤ), (2 : ℤ)) (by decide) (by decide)

/-! ## Greedy close-point removal (`remove_close_points`) -/

/-- A 3D point with rational (float-valued) coordinates. -/
abbrev Point3 : Type := ℚ × ℚ × ℚ

/-- Componentwise resolution scaling of a point (source lines 1359-1363,
`ndim = 3`). -/
def scalePoint (res : Point3) (p : Point3) : Point3 :=
  (p.1 * res.1, p.2.1 * res.2.1, p.2.2 * res.2.2)

/-- Squared Euclidean distance between two points. -/
def sqDist3 (a b : Point3) : ℚ :=
  (a.1 - b.1) ^ 2 + (a.2.1 - b.2.1) ^ 2 + (a.2.2 - b.2.2) ^ 2

/-- The `tree.query_pairs(radius)` adjacency (source line 1372): two distinct
indices are neighbours when their scaled points are at Euclidean distance at
most `radius`; the comparison is encoded on squares, which agrees with the
distance comparison for the meaningful nonnegative radii. -/
def closeIdx (scaled : List Point3) (radius : ℚ) (i j : ℕ) : Bool :=
  decide (i ≠ j) &&
    decide (sqDist3 (scaled.getD i (0, 0, 0)) (scaled.getD j (0, 0, 0)) ≤ radius ^ 2)

/-- Neighbour set of index `i` (source lines 1374-1384; the pairs dictionary
is symmetrised there). -/
def neighborsOf (scaled : List Point3) (radius : ℚ) (i : ℕ) : List ℕ :=
  (List.range scaled.length).filter (closeIdx scaled radius i)

/-- State of the greedy keep/discard pass. -/
structure GreedyState where
  keep : List ℕ
  discard : List ℕ
deriving DecidableEq, Repr

/-- One step of the greedy pass (source lines 1390-1393): skip a node already
discarded, otherwise keep it and discard all its neighbours. -/
def greedyStep (nbrs : ℕ → List ℕ) (s : GreedyState) (node : ℕ) : GreedyState :=
  if node ∈ s.discard then s
  else { keep := s.keep ++ [node], discard := s.discard ++ nbrs node }

/-- Indices kept by `remove_close_points`. -/
def keptIndices (pts : List Point3) (radius : ℚ) (res : Point3) : List ℕ :=
  let scaled := pts.map (scalePoint res)
  ((List.range pts.length).foldl (greedyStep (neighborsOf scaled radius))
    ⟨[], []⟩).keep

/-- `remove_close_points` (source lines 1326-1403): the returned points are
the original (unscaled) points at the kept indices. -/
def removeClosePoints (pts : List Point3) (radius : ℚ) (res : Point3) : List Point3 :=
  (keptIndices pts radius res).map fun i => pts.getD i (0, 0, 0)

/-- Invariant of the greedy pass: the neighbours of every kept node are
discarded, and no kept node is discarded. -/
def GreedyInv (nbrs : ℕ → List ℕ) (s : GreedyState) : Prop :=
  (∀ a ∈ s.keep, ∀ b ∈ nbrs a, b ∈ s.discard) ∧ (∀ a ∈ s.keep, a ∉ s.discard)

theorem greedyStep_inv (nbrs : ℕ → List ℕ) (node : ℕ)
    (hsym : ∀ a, a ∈ nbrs node → node ∈ nbrs a) (hirr : node ∉ nbrs node)
    (s : GreedyState) (hs : GreedyInv nbrs s) :
    GreedyInv nbrs (greedyStep nbrs s node) := by
  rw [greedyStep]
  by_cases hd : node ∈ s.discard
  · rw [if_pos hd]; exact hs
  · rw [if_neg hd]
    constructor
    · intro a ha b hb
      rcases List.mem_append.mp ha with ha | ha
      · exact List.mem_append_left _ (hs.1 a ha b hb)
      · have : a = node := by simpa using ha
        subst this
        exact List.mem_append_right _ hb
    · intro a ha hcontra
      rcases List.mem_append.mp ha with ha | ha
      · rcases List.mem_append.mp hcontra with hc | hc
        · exact hs.2 a ha hc
        · exact hd (hs.1 a ha node (hsym a hc))
      · have : a = node := by simpa using ha
        subst this
        rcases List.mem_append.mp hcontra with hc | hc
        · exact hd hc
        · exact hirr hc

theorem greedyFold_inv (nbrs : ℕ → List ℕ) :
    ∀ (l : List ℕ) (s : GreedyState),
      (∀ node ∈ l, (∀ a, a ∈ nbrs node → node ∈ nbrs a) ∧ node ∉ nbrs node) →
      GreedyInv nbrs s → GreedyInv nbrs (l.foldl (greedyStep nbrs) s) := by
  intro l
  induction l with
  | nil => intro s _ hs; exact hs
  | cons node rest ih =>
    intro s hl hs
    rw [List.foldl_cons]
    have hnode := hl node (List.mem_cons_self _ _)
    exact ih _ (fun m hm => hl m (List.mem_cons_of_mem _ hm))
      (greedyStep_inv nbrs node hnode.1 hnode.2 s hs)

theorem greedyFold_keep_subset (nbrs : ℕ → List ℕ) :
    ∀ (l : List ℕ) (s : GreedyState),
      ∀ a ∈ (l.foldl (greedyStep nbrs) s).keep, a ∈ s.keep ∨ a ∈ l := by
  intro l
  induction l with
  | nil => intro s a ha; exact Or.inl ha
  | cons node rest ih =>
    intro s a ha
    rw [List.foldl_cons] at ha
    rcases ih _ a ha with hk | hr
    · rw [greedyStep] at hk
      by_cases hd : node ∈ s.discard
      · rw [if_pos hd] at hk; exact Or.inl hk
      · rw [if_neg hd] at hk
        rcases List.mem_append.mp hk with hk | hk
        · exact Or.inl hk
        · have : a = node := by simpa using hk
          exact Or.inr (this ▸ List.mem_cons_self _ _)
    · exact Or.inr (List.mem_cons_of_mem _ hr)

theorem sqDist3_comm (a b : Point3) : sqDist3 a b = sqDist3 b a := by
  rw [sqDist3, sqDist3]; ring

/-- C10: after the greedy keep-first/discard-neighbours pass of
`remove_close_points`, every two distinct kept indices are strictly more
than `radius` apart under the resolution-scaled Euclidean distance (stated
on squares: the squared scaled distance strictly exceeds the squared
radius, which for a nonnegative radius is exactly strict distance
separation). -/
theorem claim_C10_remove_close_points (pts : List Point3) (radius : ℚ)
    (res : Point3) (hr : 0 ≤ radius) (i j : ℕ)
    (hi : i ∈ keptIndices pts radius res) (hj : j ∈ keptIndices pts radius res)
    (hij : i ≠ j) :
    radius ^ 2 < sqDist3 ((pts.map (scalePoint res)).getD i (0, 0, 0))
      ((pts.map (scalePoint res)).getD j (0, 0, 0)) := by
  by_contra hle
  push_neg at hle
  set scaled := pts.map (scalePoint res) with hscaled
  have hlen : scaled.length = pts.length := by rw [hscaled, List.length_map]
  have hnodes : ∀ node ∈ List.range pts.length,
      (∀ a, a ∈ neighborsOf scaled radius node → node ∈ neighborsOf scaled radius a) ∧
      node ∉ neighborsOf scaled radius node := by
    intro node hnode
    constructor
    · intro a ha
      rw [neighborsOf, List.mem_filter] at ha ⊢
      refine ⟨by rw [hlen]; exact hnode, ?_⟩
      rw [closeIdx] at ha ⊢
      simp only [Bool.and_eq_true, decide_eq_true_eq] at ha ⊢
      exact ⟨Ne.symm ha.2.1, by rw [sqDist3_comm]; exact ha.2.2⟩
    · intro hmem
      rw [neighborsOf, List.mem_filter, closeIdx] at hmem
      simp at hmem
  have hinv : GreedyInv (neighborsOf scaled radius)
      ((List.range pts.length).foldl (greedyStep (neighborsOf scaled radius))
        ⟨[], []⟩) := by
    refine greedyFold_inv _ _ _ hnodes ⟨?_, ?_⟩ <;> intro a ha <;> simp at ha
  have hjlen : j < pts.length := by
    rcases greedyFold_keep_subset (neighborsOf scaled radius)
        (List.range pts.length) ⟨[], []⟩ j hj with h | h
    · simp at h
    · exact List.mem_range.mp h
  have hjn : j ∈ neighborsOf scaled radius i := by
    rw [neighborsOf, List.mem_filter, closeIdx]
    refine ⟨by rw [hlen]; exact List.mem_range.mpr hjlen, ?_⟩
    simp only [Bool.and_eq_true, decide_eq_true_eq]
    exact ⟨hij, hle⟩
  exact hinv.2 j hj (hinv.1 i hi j hjn)

/-- Witness for C10 on the spec scenario: points
`[(0,0,0), (1,0,0), (10,0,0)]`, radius 2, resolution `(1,1,1)` keep exactly
the indices 0 and 2 (one of the close first pair plus the far third point),
and the kept pair is strictly more than the radius apart. -/
theorem claim_C10_witness :
    keptIndices [((0 : ℚ), (0 : ℚ), (0 : ℚ)), (1, 0, 0), (10, 0, 0)] 2 (1, 1, 1) = [0, 2] ∧
    (2 : ℚ) ^ 2 <
      sqDist3 (([((0 : ℚ), (0 : ℚ), (0 : ℚ)), (1, 0, 0), (10, 0, 0)].map
          (scalePoint (1, 1, 1))).getD 0 (0, 0, 0))
        (([((0 : ℚ), (0 : ℚ), (0 : ℚ)), (1, 0, 0), (10, 0, 0)].map
          (scalePoint (1, 1, 1))).getD 2 (0, 0, 0)) := by
  have hk : keptIndices [((0 : ℚ), (0 : ℚ), (0 : ℚ)), (1, 0, 0), (10, 0, 0)] 2 (1, 1, 1)
      = [0, 2] := by
    norm_num [keptIndices, greedyStep, neighborsOf, closeIdx, sqDist3, scalePoint,
      List.range_succ, List.filter_append, List.filter]
  refine ⟨hk, claim_C10_remove_close_points
    [((0 : ℚ), (0 : ℚ), (0 : ℚ)), (1, 0, 0), (10, 0, 0)] 2 (1, 1, 1)
    (by norm_num) 0 2 ?_ ?_ (by decide)⟩
  · rw [hk]; decide
  · rw [hk]; decide

end BiaPy
